import Mathlib

/-!
Shallow embedding of the routing-and-streaming pipeline of the
`ai-multiagent` repository: the intent classifier (`classifyIntent`), the
streaming router (`routeAndAnswerStream`, in both its `src/unnamed/part_005`
and `src/server/app/routers/routerAgent.js` variants), the agent-first /
model-fallback responders (`codingAgent`, `genericAgent`,
`financeAgentStream`) and the answer normalizer.

JavaScript dynamic values are modelled by `Jval`; JS numbers are modelled by
exact rationals (the pipeline never relies on floating-point rounding for the
properties below).  Machine streams are modelled by the finite list of
fragments the upstream yields, plus a flag telling whether the stream ends by
throwing; the `AbortSignal` is modelled by the number of further fragment
pulls after which the signal reads as aborted.
-/

namespace AiMultiagent

/-- Model of a JavaScript/JSON value as manipulated by the router code. -/
inductive Jval where
  | jnull : Jval
  | jbool : Bool → Jval
  | jnum : ℚ → Jval
  | jstr : String → Jval
  | jarr : List Jval → Jval
  | jobj : List (String × Jval) → Jval
deriving Repr, Inhabited

namespace Jval

/-- Property access `v.k` on a JS value: `some` for a present object field
(last duplicate key wins, as in `JSON.parse`), `none` for `undefined`. -/
def jGet (v : Jval) (k : String) : Option Jval :=
  match v with
  | .jobj fs => (fs.filter (fun p => p.1 = k)).getLast?.map (·.2)
  | _ => none

/-- Array index access `v[i]`: `none` models `undefined`. -/
def jIndex (v : Jval) (i : Nat) : Option Jval :=
  match v with
  | .jarr xs => xs.get? i
  | _ => none

/-- JS truthiness of a value. -/
def jsTruthy : Jval → Bool
  | .jnull => false
  | .jbool b => b
  | .jnum q => q ≠ 0
  | .jstr s => s ≠ ""
  | .jarr _ => true
  | .jobj _ => true

end Jval

open Jval

/-! ### JS string helpers (trim, whitespace) -/

/-- Characters removed by JavaScript `String.prototype.trim`. -/
def isJsWs (c : Char) : Bool :=
  c = ' ' ∨ c = '\t' ∨ c = '\n' ∨ c = '\r' ∨ c = '\x0b' ∨ c = '\x0c' ∨
  c = ' ' ∨ c = ' ' ∨ c = ' ' ∨ c = '﻿'

/-- The JS `String.prototype.trim`, on the character list. -/
def jsTrimList (l : List Char) : List Char :=
  ((l.dropWhile isJsWs).reverse.dropWhile isJsWs).reverse

/-- The JS `String.prototype.trim`. -/
def jsTrim (s : String) : String := ⟨jsTrimList s.data⟩

/-! ### JSON.parse (the fragment of ECMA-404 the pipeline can receive) -/

/-- Whitespace accepted between JSON tokens by `JSON.parse`. -/
def isJsonWs (c : Char) : Bool :=
  c = ' ' ∨ c = '\t' ∨ c = '\n' ∨ c = '\r'

def skipWs (l : List Char) : List Char := l.dropWhile isJsonWs

def isDigit (c : Char) : Bool := '0' ≤ c ∧ c ≤ '9'

def digitVal (c : Char) : ℕ := c.toNat - '0'.toNat

def digitsVal (l : List Char) : ℕ := l.foldl (fun a c => a * 10 + digitVal c) 0

def hexVal (c : Char) : ℕ :=
  if '0' ≤ c ∧ c ≤ '9' then c.toNat - '0'.toNat
  else if 'a' ≤ c ∧ c ≤ 'f' then c.toNat - 'a'.toNat + 10
  else c.toNat - 'A'.toNat + 10

def isHex (c : Char) : Bool :=
  ('0' ≤ c ∧ c ≤ '9') ∨ ('a' ≤ c ∧ c ≤ 'f') ∨ ('A' ≤ c ∧ c ≤ 'F')

/-- Parse the body of a JSON string literal (after the opening quote),
returning the decoded characters and the rest after the closing quote. -/
def pString (fuel : ℕ) (l : List Char) : Option (List Char × List Char) :=
  match fuel, l with
  | 0, _ => none
  | _, [] => none
  | fuel + 1, c :: rest =>
    if c = '"' then some ([], rest)
    else if c = '\\' then
      match rest with
      | [] => none
      | e :: rest' =>
        if e = 'u' then
          match rest' with
          | a :: b :: c2 :: d :: rest'' =>
            if isHex a ∧ isHex b ∧ isHex c2 ∧ isHex d then
              (pString fuel rest'').map fun (cs, r) =>
                (Char.ofNat (((hexVal a * 16 + hexVal b) * 16 + hexVal c2) * 16 + hexVal d) :: cs, r)
            else none
          | _ => none
        else
          let dec : Option Char :=
            if e = '"' then some '"'
            else if e = '\\' then some '\\'
            else if e = '/' then some '/'
            else if e = 'b' then some '\x08'
            else if e = 'f' then some '\x0c'
            else if e = 'n' then some '\n'
            else if e = 'r' then some '\r'
            else if e = 't' then some '\t'
            else none
          match dec with
          | some d => (pString fuel rest').map fun (cs, r) => (d :: cs, r)
          | none => none
    else if c.toNat < 0x20 then none
    else (pString fuel rest).map fun (cs, r) => (c :: cs, r)

/-- Parse a JSON number at the head of the input (strict JSON grammar:
optional minus, no leading zeros, optional fraction and exponent). -/
def pNumber (l : List Char) : Option (ℚ × List Char) :=
  let (neg, l1) := match l with
    | '-' :: r => (true, r)
    | _ => (false, l)
  let intDigits := l1.takeWhile isDigit
  let l2 := l1.dropWhile isDigit
  if intDigits = [] then none
  else if intDigits.length > 1 ∧ intDigits.head? = some '0' then none
  else
    let ip : ℚ := (digitsVal intDigits : ℕ)
    let (fp, l3) : ℚ × List Char :=
      match l2 with
      | '.' :: r =>
        let fd := r.takeWhile isDigit
        if fd = [] then (0, l2)
        else ((digitsVal fd : ℚ) / ((10 : ℚ) ^ fd.length), r.dropWhile isDigit)
      | _ => (0, l2)
    -- a '.' not followed by digits is a syntax error in JSON
    match l2 with
    | '.' :: r =>
      if r.takeWhile isDigit = [] then none
      else
        let base := ip + fp
        match l3 with
        | e :: r2 =>
          if e = 'e' ∨ e = 'E' then
            let (eneg, r3) := match r2 with
              | '+' :: r4 => (false, r4)
              | '-' :: r4 => (true, r4)
              | _ => (false, r2)
            let ed := r3.takeWhile isDigit
            if ed = [] then none
            else
              let ex : ℚ := (10 : ℚ) ^ digitsVal ed
              let v := if eneg then base / ex else base * ex
              some (if neg then -v else v, r3.dropWhile isDigit)
          else some (if neg then -base else base, l3)
        | [] => some (if neg then -base else base, l3)
    | _ =>
      let base := ip + fp
      match l3 with
      | e :: r2 =>
        if e = 'e' ∨ e = 'E' then
          let (eneg, r3) := match r2 with
            | '+' :: r4 => (false, r4)
            | '-' :: r4 => (true, r4)
            | _ => (false, r2)
          let ed := r3.takeWhile isDigit
          if ed = [] then none
          else
            let ex : ℚ := (10 : ℚ) ^ digitsVal ed
            let v := if eneg then base / ex else base * ex
            some (if neg then -v else v, r3.dropWhile isDigit)
        else some (if neg then -base else base, l3)
      | [] => some (if neg then -base else base, l3)

mutual

/-- Parse one JSON value at the head of the input. -/
def pValue (fuel : ℕ) (l : List Char) : Option (Jval × List Char) :=
  match fuel with
  | 0 => none
  | fuel + 1 =>
    match l with
    | [] => none
    | c :: rest =>
      if c = '{' then pObject fuel (skipWs rest) true
      else if c = '[' then pArray fuel (skipWs rest) true
      else if c = '"' then (pString fuel rest).map fun (cs, r) => (.jstr ⟨cs⟩, r)
      else if c = 't' then
        if l.take 4 = "true".data then some (.jbool true, l.drop 4) else none
      else if c = 'f' then
        if l.take 5 = "false".data then some (.jbool false, l.drop 5) else none
      else if c = 'n' then
        if l.take 4 = "null".data then some (.jnull, l.drop 4) else none
      else (pNumber l).map fun (q, r) => (.jnum q, r)

/-- Parse object members; `first` is true just after the opening brace. -/
def pObject (fuel : ℕ) (l : List Char) (first : Bool) : Option (Jval × List Char) :=
  match fuel with
  | 0 => none
  | fuel + 1 =>
    match l with
    | '}' :: rest => if first then some (.jobj [], rest) else none
    | _ =>
      (pMembers fuel l).map fun (fs, r) => (.jobj fs, r)

/-- Parse `string : value (, string : value)* }`. -/
def pMembers (fuel : ℕ) (l : List Char) : Option (List (String × Jval) × List Char) :=
  match fuel with
  | 0 => none
  | fuel + 1 =>
    match l with
    | '"' :: rest =>
      match pString fuel rest with
      | none => none
      | some (k, r1) =>
        match skipWs r1 with
        | ':' :: r2 =>
          match pValue fuel (skipWs r2) with
          | none => none
          | some (v, r3) =>
            match skipWs r3 with
            | ',' :: r4 => (pMembers fuel (skipWs r4)).map fun (fs, r) => ((⟨k⟩, v) :: fs, r)
            | '}' :: r4 => some ([(⟨k⟩, v)], r4)
            | _ => none
        | _ => none
    | _ => none

/-- Parse array elements; `first` is true just after the opening bracket. -/
def pArray (fuel : ℕ) (l : List Char) (first : Bool) : Option (Jval × List Char) :=
  match fuel with
  | 0 => none
  | fuel + 1 =>
    match l with
    | ']' :: rest => if first then some (.jarr [], rest) else none
    | _ =>
      (pElements fuel l).map fun (xs, r) => (.jarr xs, r)

/-- Parse `value (, value)* ]`. -/
def pElements (fuel : ℕ) (l : List Char) : Option (List Jval × List Char) :=
  match fuel with
  | 0 => none
  | fuel + 1 =>
    match pValue fuel l with
    | none => none
    | some (v, r1) =>
      match skipWs r1 with
      | ',' :: r2 => (pElements fuel (skipWs r2)).map fun (xs, r) => (v :: xs, r)
      | ']' :: r2 => some ([v], r2)
      | _ => none

end

/-- Model of `JSON.parse`: parse a complete JSON document, rejecting trailing input.
Returns `none` where `JSON.parse` throws. -/
def jsonParse (s : String) : Option Jval :=
  match pValue (s.data.length + 1) (skipWs s.data) with
  | some (v, rest) => if skipWs rest = [] then some v else none
  | none => none

end AiMultiagent

namespace AiMultiagent

/-! ### JSON.stringify and JS string/number coercions -/

/-- Join with `","` (used by `JSON.stringify` and `Array.prototype.toString`). -/
def joinComma : List String → String
  | [] => ""
  | [x] => x
  | x :: xs => x ++ "," ++ joinComma xs

def hexDigit (n : ℕ) : String :=
  ⟨[(if n < 10 then Char.ofNat ('0'.toNat + n) else Char.ofNat ('a'.toNat + n - 10))]⟩

/-- Escaping of one character inside a `JSON.stringify`d string literal. -/
def quoteChar (c : Char) : String :=
  if c = '"' then "\\\""
  else if c = '\\' then "\\\\"
  else if c = '\x08' then "\\b"
  else if c = '\t' then "\\t"
  else if c = '\n' then "\\n"
  else if c = '\x0c' then "\\f"
  else if c = '\r' then "\\r"
  else if c.toNat < 0x20 then "\\u00" ++ hexDigit (c.toNat / 16) ++ hexDigit (c.toNat % 16)
  else ⟨[c]⟩

def quoteJson (s : String) : String :=
  "\"" ++ String.join (s.data.map quoteChar) ++ "\""

/-- Least `k ≤ 50` with `d ∣ 10^k`, if any (every number `JSON.parse` can
produce from a short literal has such a denominator). -/
def pow10Exp (d : ℕ) : Option ℕ :=
  (List.range 51).find? (fun k => 10 ^ k % d = 0)

def padZeros (s : String) (k : ℕ) : String :=
  (⟨List.replicate (k - s.length) '0'⟩ : String) ++ s

/-- Rendering of a JS number to a string.  Exact for every rational with a
finite decimal expansion, which covers all numbers arising from the JSON
fragments the pipeline handles; JS double rounding is not modelled. -/
def renderNum (q : ℚ) : String :=
  let sign := if q < 0 then "-" else ""
  let n := q.num.natAbs
  let d := q.den
  match pow10Exp d with
  | some 0 => sign ++ toString n
  | some k =>
    let scaled := n * (10 ^ k / d)
    sign ++ toString (scaled / 10 ^ k) ++ "." ++ padZeros (toString (scaled % 10 ^ k)) k
  | none => sign ++ toString n ++ "/" ++ toString d

mutual

/-- Model of `JSON.stringify` (on values without `undefined`/functions, which the
router never builds). -/
def jsonStringify : Jval → String
  | .jnull => "null"
  | .jbool true => "true"
  | .jbool false => "false"
  | .jnum q => renderNum q
  | .jstr s => quoteJson s
  | .jarr xs => "[" ++ joinComma (stringifyElems xs) ++ "]"
  | .jobj fs => "\x7b" ++ joinComma (stringifyFields fs) ++ "\x7d"

def stringifyElems : List Jval → List String
  | [] => []
  | x :: xs => jsonStringify x :: stringifyElems xs

def stringifyFields : List (String × Jval) → List String
  | [] => []
  | (k, v) :: fs => (quoteJson k ++ ":" ++ jsonStringify v) :: stringifyFields fs

end

mutual

/-- The JS `String(x)` coercion. -/
def jsToString : Jval → String
  | .jnull => "null"
  | .jbool true => "true"
  | .jbool false => "false"
  | .jnum q => renderNum q
  | .jstr s => s
  | .jarr xs => joinComma (elemStrings xs)
  | .jobj _ => "[object Object]"

def elemStrings : List Jval → List String
  | [] => []
  | .jnull :: xs => "" :: elemStrings xs
  | x :: xs => jsToString x :: elemStrings xs

end

/-- Lenient numeric-literal parse used by the JS `Number(string)` coercion
(accepts leading zeros and a leading sign, unlike JSON). -/
def numLenient (l : List Char) : Option ℚ :=
  let (neg, l1) := match l with
    | '+' :: r => (false, r)
    | '-' :: r => (true, r)
    | _ => (false, l)
  let ds := l1.takeWhile isDigit
  let l2 := l1.dropWhile isDigit
  if ds = [] ∧ l2.head? ≠ some '.' then none
  else
    let ip : ℚ := (digitsVal ds : ℕ)
    let (v, rest) : ℚ × List Char :=
      match l2 with
      | '.' :: r =>
        let fd := r.takeWhile isDigit
        (ip + (digitsVal fd : ℚ) / ((10 : ℚ) ^ fd.length), r.dropWhile isDigit)
      | _ => (ip, l2)
    if rest = [] then some (if neg then -v else v) else none

/-- The JS `Number(string)` coercion (approximated: no hex/`Infinity`;
`none` models `NaN`). -/
def jsStringToNumber (s : String) : Option ℚ :=
  let t := jsTrim s
  if t = "" then some 0 else numLenient t.data

/-- The JS `Number(x)` coercion; `none` models a non-finite result. -/
def jsToNumber : Jval → Option ℚ
  | .jnull => some 0
  | .jbool b => some (if b then 1 else 0)
  | .jnum q => some q
  | .jstr s => jsStringToNumber s
  | .jarr [] => some 0
  | .jarr [x] => jsToNumber x
  | .jarr (_ :: _ :: _) => none
  | .jobj _ => none

/-- The helper `clamp01` from `routerAgent.js`: `Number(x)` then clamp into `[0,1]`,
defaulting to `0.5` when not finite.  The argument is an optional field
value (`none` models `undefined`). -/
def clamp01 (x : Option Jval) : ℚ :=
  match x with
  | none => 1/2
  | some v =>
    match jsToNumber v with
    | some n => max 0 (min 1 n)
    | none => 1/2

end AiMultiagent

namespace AiMultiagent

open Jval

/-! ### The answer normalizer of `codeAgent.js` / `genericAgent.js` -/

/-- One left-to-right pass of `s.replace(tok-as-global-regex, "")`:
at each position, if `tok` starts here, delete it and continue scanning
after it; otherwise keep the character.  The fuel argument only serves
structural termination; every recursive call consumes at least one
character, so any `fuel ≥ l.length` gives the same result. -/
def stripGo (tok : List Char) : ℕ → List Char → List Char
  | _, [] => []
  | 0, l => l
  | fuel + 1, c :: rest =>
    if tok ≠ [] ∧ (c :: rest).take tok.length = tok then
      stripGo tok fuel ((c :: rest).drop tok.length)
    else c :: stripGo tok fuel rest

/-- The JS `s.replace(/tok/g, "")` for a literal token `tok`. -/
def jsStripAll (tok : List Char) (l : List Char) : List Char :=
  stripGo tok l.length l

/-- Whether `tok` occurs as a contiguous substring of `l`. -/
def hasTok (tok : List Char) : List Char → Bool
  | [] => false
  | c :: rest => decide ((c :: rest).take tok.length = tok) || hasTok tok rest

/-- The characters of the literal `"[object Object]"`. -/
def objTok : List Char := "[object Object]".data

/-- The answer normalizer `normalize` from `codeAgent.js`/`genericAgent.js`: a string answer has
every match of `/\[object Object\]/g` removed and is trimmed; any other
value is `JSON.stringify`d. -/
def normalize (out : Jval) : String :=
  match out with
  | .jstr s => jsTrim ⟨jsStripAll objTok s.data⟩
  | v => jsonStringify v

/-! ### The classifier's permissive JSON extraction (`routerAgent.js`) -/

/-- Characters of the match of `/\{[\s\S]*?\}/` starting at the current
position (which must follow a `{`): everything up to and including the
first `}`. -/
def afterBrace : List Char → Option (List Char)
  | [] => none
  | c :: rest => if c = '}' then some [c] else (afterBrace rest).map (c :: ·)

/-- Find the first position where `/\{[\s\S]*?\}/` matches and return the
matched characters. -/
def eFJ : List Char → Option (List Char)
  | [] => none
  | c :: rest => if c = '{' then (afterBrace rest).map (c :: ·) else eFJ rest

/-- The helper `extractFirstJson` from `routerAgent.js` (`part_005`): the first match
of the non-greedy regex `/\{[\s\S]*?\}/`, or `null`. -/
def extractFirstJson (s : String) : Option String :=
  (eFJ s.data).map fun cs => ⟨cs⟩

/-- The helper `safeParseJson` from `part_005`: extract the first `{...}` block (falling
back to the raw text), trim, `JSON.parse`; `none` on failure. -/
def safeParseJson (raw : String) : Option Jval :=
  let cand := (extractFirstJson raw).getD raw
  jsonParse (jsTrim cand)

/-! ### Labels and classification -/

inductive Label where
  | code
  | finance
  | general
deriving Repr, DecidableEq, Inhabited

/-- The wire string of a label. -/
def labelStr : Label → String
  | .code => "code"
  | .finance => "finance"
  | .general => "general"

/-- The display name attached to the `intent` event for each label. -/
def agentDisplayName : Label → String
  | .code => "Code Agent"
  | .finance => "Finance Agent"
  | .general => "General Agent"

/-- The membership test `["code","finance","general"].includes(label)`. -/
def labelOfString? (s : String) : Option Label :=
  if s = "code" then some .code
  else if s = "finance" then some .finance
  else if s = "general" then some .general
  else none

/-- The `source` strings produced by `classifyIntent` in `part_005`. -/
inductive Source where
  | agent
  | llm
  | fallback
deriving Repr, DecidableEq, Inhabited

structure ClassificationResult where
  label : Label
  confidence : ℚ
  source : Source
deriving Repr, DecidableEq, Inhabited

/-- The coercion `String(parsed.label || "").toLowerCase()` then the membership test in
`["code","finance","general"]`. -/
def parsedLabel (p : Jval) : Option Label :=
  let lv := (jGet p "label").getD .jnull
  let lv := if jsTruthy lv then lv else .jstr ""
  labelOfString? ((jsToString lv).toLower)

/-- The label/confidence a raw provider reply yields through
`safeParseJson` + truthiness check + label validation, if any. -/
def validFrom (raw : String) : Option (Label × ℚ) :=
  match safeParseJson raw with
  | none => none
  | some p =>
    if jsTruthy p then
      match parsedLabel p with
      | some l => some (l, clamp01 (jGet p "confidence"))
      | none => none
    else none

/-- The classifier `classifyIntent` from `part_005`.

`agentCall`: `none` when no classification agent id/alias pair is configured;
`some r` is the outcome of `invokeAgentText` (`.error` models a throw).
`modelCall` is the outcome of the fallback `BedrockLLM.ask`.  The returned
`.error` models `classifyIntent` itself rejecting: the fallback `ask` is not
wrapped in any try/catch in the source, so its throw propagates. -/
def classifyIntent (agentCall : Option (Except String String))
    (modelCall : Except String String) : Except String ClassificationResult :=
  let step2 : Except String ClassificationResult :=
    match modelCall with
    | .error e => .error e
    | .ok raw =>
      match validFrom raw with
      | some (l, c) => .ok ⟨l, c, .llm⟩
      | none => .ok ⟨.general, 1/2, .fallback⟩
  match agentCall with
  | some (.ok out) =>
    match validFrom out with
    | some (l, c) => .ok ⟨l, c, .agent⟩
    | none => step2
  | some (.error _) => step2
  | none => step2

end AiMultiagent

namespace AiMultiagent

open Jval

/-! ### The streaming router of `part_005` (`routeAndAnswerStream`) -/

/-- The structured events yielded by `routeAndAnswerStream` in `part_005`
(each carries the classified intent, as the source objects do). -/
inductive Ev where
  | intent (label : Label) (agentName : String)
  | delta (label : Label) (text : String)
  | error (label : Label) (msg : String)
  | done (label : Label)
deriving Repr, DecidableEq, Inhabited

/-- The helper `normalizeToString` from `part_005`: coerce an incoming streamed piece
to a string for the buffering heuristics. -/
def normalizeToString (piece : Jval) : String :=
  match piece with
  | .jnull => ""
  | .jstr s => s
  | .jobj _ =>
    match jGet piece "delta" with
    | some (.jstr d) => d
    | _ =>
      match jGet piece "text" with
      | some (.jstr t) => t
      | _ => jsonStringify piece
  | .jarr _ => jsonStringify piece
  | v => jsToString v

/-- The provider-schema dispatch of `part_005` step 3: the JS value bound to
`deltaText` after the `if`/`else if` chain on a successfully parsed buffer. -/
def extractDeltaVal (p : Jval) : Jval :=
  let isCBD : Bool := match jGet p "type" with
    | some (.jstr t) => t = "content_block_delta"
    | _ => false
  if isCBD then
    -- parsed?.delta?.text || ""
    let t := ((jGet p "delta").bind (fun d => jGet d "text")).getD .jnull
    if jsTruthy t then t else .jstr ""
  else if jsTruthy ((jGet p "choices").getD .jnull) then
    -- parsed.choices[0]?.delta?.content ?? ""
    let c := (jGet p "choices").getD .jnull
    match ((jIndex c 0).bind (fun x => jGet x "delta")).bind (fun d => jGet d "content") with
    | some .jnull => .jstr ""
    | some v => v
    | none => .jstr ""
  else
    match jGet p "delta" with
    | some (.jstr d) => .jstr d
    | _ =>
      match jGet p "text" with
      | some (.jstr t) => .jstr t
      | _ =>
        match p with
        | .jstr s => .jstr s
        | _ => .jstr (jsonStringify p)

/-- The test `/^[\[{]/.test(trimmed)`. -/
def looksJson (t : String) : Bool :=
  match t.data with
  | '{' :: _ => true
  | '[' :: _ => true
  | _ => false

/-- Result of the `for await` loop of `part_005` step 3: the `delta` events
yielded, the final JSON accumulation buffer, whether the upstream threw
(caught by the surrounding `try`), and how many fragments were pulled from
the upstream source. -/
structure LoopOut where
  evs : List Ev
  buf : String
  errored : Bool
  pulls : ℕ
deriving Repr, DecidableEq

/-- The `for await (const piece of stream)` loop of `part_005`.

`pieces` are the fragments the upstream yields in order; `endErr` tells
whether the upstream throws after its last fragment (a throw on some pull is
a throw after the fragments delivered before it).  `cancel = some k` models
an `AbortSignal` that reads as aborted at any check performed after `k`
further fragments have been pulled (`none`: never aborted).  As in the
source, the signal is tested at the top of the loop body, i.e. after the
`for await` has already pulled the next fragment. -/
def streamLoop (intent : Label) : List Jval → Bool → String → Option ℕ → LoopOut
  | [], endErr, buf, _ => ⟨[], buf, endErr, 0⟩
  | piece :: rest, endErr, buf, cancel =>
    if cancel = some 0 then
      -- `if (signal?.aborted) break;`
      ⟨[], buf, false, 1⟩
    else
      let cancel' := cancel.map (· - 1)
      let s := normalizeToString piece
      if s = "" then
        -- `if (!s) continue;`
        let r := streamLoop intent rest endErr buf cancel'
        ⟨r.evs, r.buf, r.errored, r.pulls + 1⟩
      else if intent = .code then
        -- plain passthrough for code
        let r := streamLoop intent rest endErr buf cancel'
        ⟨.delta intent s :: r.evs, r.buf, r.errored, r.pulls + 1⟩
      else
        let t := jsTrim s
        if looksJson t then
          let buf' := buf ++ t
          match jsonParse buf' with
          | some parsed =>
            let dv := extractDeltaVal parsed
            let r := streamLoop intent rest endErr "" cancel'
            ⟨(if jsTruthy dv then [.delta intent (jsToString dv)] else []) ++ r.evs,
              r.buf, r.errored, r.pulls + 1⟩
          | none =>
            let r := streamLoop intent rest endErr buf' cancel'
            ⟨r.evs, r.buf, r.errored, r.pulls + 1⟩
        else
          let r := streamLoop intent rest endErr buf cancel'
          ⟨.delta intent s :: r.evs, r.buf, r.errored, r.pulls + 1⟩

/-- The streaming route `routeAndAnswerStream` from `part_005`, after classification has
produced `intent`: the full sequence of structured events yielded.  The
`error` event of the catch block is followed by the unconditional final
`done` (step 5 of the source); the residual-buffer flush (step 4) happens
only when the loop was not interrupted by a throw. -/
def routeAndAnswerStream (intent : Label) (pieces : List Jval) (endErr : Bool)
    (cancel : Option ℕ) : List Ev :=
  let out := streamLoop intent pieces endErr "" cancel
  .intent intent (agentDisplayName intent) ::
    (if out.errored then
      out.evs ++ [.error intent "Error during streaming", .done intent]
    else
      out.evs ++ (if jsTrim out.buf ≠ "" then [.delta intent out.buf] else []) ++
        [.done intent])

/-- Number of fragments `routeAndAnswerStream` pulls from the upstream
fragment source. -/
def routePulls (intent : Label) (pieces : List Jval) (endErr : Bool)
    (cancel : Option ℕ) : ℕ :=
  (streamLoop intent pieces endErr "" cancel).pulls

end AiMultiagent

namespace AiMultiagent

open Jval

/-! ### The older streaming route of `routerAgent.js` and frame encodings -/

/-- The `deltaText` chain of the `routerAgent.js` variant (note: the third
branch tests `parsedChunk.delta` for truthiness rather than string-ness, and
there is no `text` branch and no stringify fallback). -/
def extractDeltaValV0 (p : Jval) : Jval :=
  let isCBD : Bool := match jGet p "type" with
    | some (.jstr t) => t = "content_block_delta"
    | _ => false
  if isCBD then
    let t := ((jGet p "delta").bind (fun d => jGet d "text")).getD .jnull
    if jsTruthy t then t else .jstr ""
  else if jsTruthy ((jGet p "choices").getD .jnull) then
    -- parsedChunk.choices[0]?.delta?.content || ""
    let c := (jGet p "choices").getD .jnull
    let v := (((jIndex c 0).bind (fun x => jGet x "delta")).bind
      (fun d => jGet d "content")).getD .jnull
    if jsTruthy v then v else .jstr ""
  else
    let d := (jGet p "delta").getD .jnull
    if jsTruthy d then d else .jstr ""

/-- The SSE frame `routerAgent.js` writes for one parsed chunk, if any:
unparseable chunks are logged and dropped, and a falsy `delta` yields
nothing. -/
def chunkFrameV0 (chunk : String) : List String :=
  match jsonParse chunk with
  | none => []
  | some parsed =>
    let dv := extractDeltaValV0 parsed
    if jsTruthy dv then
      ["data: " ++ jsonStringify (.jobj [("delta", dv)]) ++ "\n\n"]
    else []

/-- The loop of `routeAndAnswerStream` in `routerAgent.js` over all chunks. -/
def loopV0 : List String → List String
  | [] => []
  | c :: rest => chunkFrameV0 c ++ loopV0 rest

/-- The streaming route `routeAndAnswerStream` from `routerAgent.js`, after classification: the
SSE frame strings it yields.  There is no JSON buffer, no code-path
passthrough, no cancellation handling, and no final `done` frame; a throw
of the upstream stream yields an error frame and ends the generator. -/
def routeAndAnswerStreamV0 (intent : Label) (chunks : List String) (endErr : Bool) :
    List String :=
  ("data: " ++ jsonStringify (.jobj [("intent", .jstr (labelStr intent))]) ++ "\n\n") ::
    (loopV0 chunks ++
      (if endErr then
        ["data: " ++ jsonStringify (.jobj [("error", .jstr "Error during streaming")]) ++ "\n\n"]
      else []))

/-- The helper `cleanDelta` from `server.js`: strip `[object Object]`, zero-width
characters, and control characters other than `\n` and `\r`. -/
def cleanDelta (s : String) : String :=
  ⟨((jsStripAll objTok s.data).filter
      (fun c => ¬ (c = '​' ∨ c = '‌' ∨ c = '‍' ∨ c = '﻿'))).filter
    (fun c => ¬ (c.toNat ≤ 0x08 ∨ c = '\x0b' ∨ c = '\x0c' ∨
      (0x0e ≤ c.toNat ∧ c.toNat ≤ 0x1f)))⟩

/-- The SSE frame `server.js` writes for one structured event of the
`part_005` stream (its `for await (const msg of stream)` dispatch); `none`
when the event produces no frame (an empty cleaned delta). -/
def encodeFrame (e : Ev) : Option String :=
  match e with
  | .intent l name =>
    some ("data: " ++ jsonStringify (.jobj
      [("intent", .jstr (labelStr l)), ("agentName", .jstr name)]) ++ "\n\n")
  | .delta _ text =>
    let t := cleanDelta text
    if t = "" then none
    else some ("data: " ++ jsonStringify (.jobj [("delta", .jstr t)]) ++ "\n\n")
  | .error _ msg =>
    let m := if msg = "" then "stream error" else msg
    some ("data: " ++ jsonStringify (.jobj [("error", .jstr m)]) ++ "\n\n")
  | .done _ =>
    some ("data: " ++ jsonStringify (.jobj [("done", .jbool true)]) ++ "\n\n")

/-- The frame sequence of the `part_005` stream after `server.js` encoding. -/
def framesV5 (intent : Label) (pieces : List Jval) (endErr : Bool)
    (cancel : Option ℕ) : List String :=
  (routeAndAnswerStream intent pieces endErr cancel).filterMap encodeFrame

/-- The `done` frame of the wire protocol. -/
def doneFrame : String := "data: \x7b\"done\":true\x7d\n\n"

/-! ### The agent-first / model-fallback responders -/

/-- The prompt parameters of a direct model call
(`BedrockLLM` construction plus `ask`/`askStream` arguments). -/
structure Prompt where
  systemPrompt : String
  userPrompt : String
  temperature : ℚ
  maxTokens : ℕ
deriving Repr, DecidableEq

/-- The responder `codingAgent` from `codeAgent.js`.

`agent`: `none` when no code agent id/alias pair is configured, otherwise
the outcome of `invokeAgentText`.  `modelCall` is the direct model call
(`llm.ask`); `codeSys` abbreviates the `CODE_SYS` prompt and
`codeTemp`/`codeMax` the env-resolved inference parameters.  Returns the
responder's outcome together with the list of direct model calls made. -/
def codingAgent (agent : Option (Except String String))
    (modelCall : Prompt → Except String String) (codeSys : String)
    (codeTemp : ℚ) (codeMax : ℕ) (text : String) :
    Except String String × List Prompt :=
  match agent with
  | some (.ok answer) => (.ok (normalize (.jstr answer)), [])
  | _ =>
    let p : Prompt := ⟨codeSys, text, codeTemp, codeMax⟩
    match modelCall p with
    | .ok answer => (.ok (normalize (.jstr answer)), [p])
    | .error e => (.error e, [p])

/-- The responder `genericAgent` from `genericAgent.js` (same structure as `codingAgent`,
with the generic system prompt and env parameters). -/
def genericAgent (agent : Option (Except String String))
    (modelCall : Prompt → Except String String) (genSys : String)
    (genTemp : ℚ) (genMax : ℕ) (text : String) :
    Except String String × List Prompt :=
  match agent with
  | some (.ok answer) => (.ok (normalize (.jstr answer)), [])
  | _ =>
    let p : Prompt := ⟨genSys, text, genTemp, genMax⟩
    match modelCall p with
    | .ok answer => (.ok (normalize (.jstr answer)), [p])
    | .error e => (.error e, [p])

/-- The prompt `FIN_SYS` is abbreviated; only its identity matters for the theorems. -/
def finSys : String := "FIN_SYS"

/-- The prompt builder `buildUserPrompt` from `financeAgent.js`. -/
def buildUserPrompt (userText : String) (toolContext : String) : String :=
  String.intercalate "\n"
    ["User request:", "```", userText, "```",
      (if toolContext ≠ "" then "\nAvailable tool context:\n" ++ toolContext else ""),
      "\nFollow the required section headings exactly. Add a brief 'This is educational information, not investment advice.' disclaimer at the end."]

/-- Outcome of a streaming call: the fragments yielded, and `some msg` when
the stream ends by throwing (after those fragments). -/
structure StreamOut where
  pieces : List String
  err : Option String
deriving Repr, DecidableEq

/-- The responder `financeAgentStream` from `financeAgent.js`.

`agent`: `none` when no finance agent id/alias pair is configured, otherwise
the fragments the agent stream yields and whether it then throws.  `modelId`
is the resolved model identifier (`BEDROCK_MODEL_FINANCE` or
`models.finance`); `modelStream` is the direct model streaming call;
`toolContext` is the (total) `buildToolContext` output for `text`.  A model
throw is re-thrown wrapped as in the source (`e?.name` of a thrown `Error`
is `"Error"`).  Returns the fragments yielded downstream with the terminal
error if any, and the list of direct model calls made. -/
def financeAgentStream (agent : Option StreamOut) (modelId : Option String)
    (modelStream : Prompt → StreamOut) (toolContext : String)
    (finTemp : ℚ) (finMax : ℕ) (text : String) :
    (StreamOut × List Prompt) :=
  let modelPath : StreamOut × List Prompt :=
    match modelId with
    | none =>
      (⟨[], some "financeAgentStream: No modelId resolved (set BEDROCK_MODEL_FINANCE or provide models.finance)."⟩, [])
    | some _ =>
      let p : Prompt := ⟨finSys, buildUserPrompt text toolContext, finTemp, finMax⟩
      let out := modelStream p
      (⟨out.pieces, out.err.map (fun m => "[financeAgentStream] Error: " ++ m)⟩, [p])
  match agent with
  | some ⟨pieces, none⟩ => (⟨pieces, none⟩, [])
  | some ⟨pieces, some _⟩ =>
    -- fragments already yielded before the agent stream threw stay emitted
    (⟨pieces ++ modelPath.1.pieces, modelPath.1.err⟩, modelPath.2)
  | none => modelPath

end AiMultiagent

namespace AiMultiagent

open Jval

/-! ### Sequence-shape checkers for the event-stream invariants -/

/-- Is this event a `delta` event? -/
def isDeltaEv : Ev → Bool
  | .delta _ _ => true
  | _ => false

/-- Zero or more `delta` events followed by exactly one terminal event
(`error` or `done`), with nothing after it. -/
def deltasThenOneTerminal : List Ev → Bool
  | .delta _ _ :: r => deltasThenOneTerminal r
  | [.done _] => true
  | [.error _ _] => true
  | _ => false

/-- The sequence invariant claimed by the spec: exactly one `intent` event
first, zero or more `delta` events, then exactly one terminal event
(`error` xor `done`) and no event after it. -/
def strictSeqInvariant : List Ev → Bool
  | .intent _ _ :: r => deltasThenOneTerminal r
  | _ => false

/-- Zero or more `delta` events, then either `done` alone or `error`
immediately followed by `done`, with nothing after. -/
def deltasThenTerminal : List Ev → Bool
  | .delta _ _ :: r => deltasThenTerminal r
  | [.done _] => true
  | [.error _ _, .done _] => true
  | _ => false

/-- The sequence shape the `part_005` stream actually satisfies: one
`intent` first, zero or more `delta`s, at most one `error`, and exactly one
final `done`. -/
def actualSeqShape : List Ev → Bool
  | .intent _ _ :: r => deltasThenTerminal r
  | _ => false

/-- The valid classification the configured agent path yields, if any
(`none` when no agent is configured, the agent call throws, or its output
has no valid label). -/
def agentValid : Option (Except String String) → Option (Label × ℚ)
  | some (.ok out) => validFrom out
  | _ => none

end AiMultiagent

namespace AiMultiagent

open Jval

/-! ### Helper lemmas about the streaming loop -/

lemma streamLoop_all_delta (intent : Label) (pieces : List Jval) :
    ∀ (endErr : Bool) (buf : String) (cancel : Option ℕ),
    ((streamLoop intent pieces endErr buf cancel).evs.all isDeltaEv) = true := by
  induction pieces with
  | nil => intro e b c; simp [streamLoop]
  | cons p rest ih =>
    intro e b c
    simp only [streamLoop]
    split
    · rfl
    · split
      · exact ih e b _
      · split
        · simpa [isDeltaEv] using ih e b _
        · split
          · split
            · simp only [LoopOut.evs, List.all_append, Bool.and_eq_true]
              refine ⟨?_, ih e "" _⟩
              split <;> simp [isDeltaEv]
            · exact ih e _ _
          · simpa [isDeltaEv] using ih e b _

lemma streamLoop_not_errored (intent : Label) (pieces : List Jval) :
    ∀ (buf : String) (cancel : Option ℕ),
    (streamLoop intent pieces false buf cancel).errored = false := by
  induction pieces with
  | nil => intro b c; simp [streamLoop]
  | cons p rest ih =>
    intro b c
    simp only [streamLoop]
    split
    · rfl
    · split
      · exact ih b _
      · split
        · exact ih b _
        · split
          · split
            · exact ih "" _
            · exact ih _ _
          · exact ih b _

lemma deltasThenTerminal_append (evs : List Ev) (tail : List Ev)
    (h : evs.all isDeltaEv = true) (ht : deltasThenTerminal tail = true) :
    deltasThenTerminal (evs ++ tail) = true := by
  induction evs with
  | nil => simpa using ht
  | cons e rest ih =>
    simp only [List.all_cons, Bool.and_eq_true] at h
    cases e with
    | delta l t => simpa [deltasThenTerminal] using ih h.2
    | intent l n => simp [isDeltaEv] at h
    | error l m => simp [isDeltaEv] at h
    | done l => simp [isDeltaEv] at h

end AiMultiagent

namespace AiMultiagent

open Jval

/-- C1 (counterexample): on an upstream stream that throws immediately, the
`part_005` streaming route yields `intent`, then `error`, then `done`: the
`error` event is not terminal (the unconditional final `done` follows it),
so the claimed "exactly one terminal event with no events after it"
invariant fails. -/
theorem routeStream_error_then_done_breaks_invariant :
    strictSeqInvariant (routeAndAnswerStream .general [] true none) = false ∧
    routeAndAnswerStream .general [] true none =
      [.intent .general "General Agent", .error .general "Error during streaming",
        .done .general] := ⟨by decide, by decide⟩

/-- C1 (amended): every event sequence of the `part_005` streaming route
consists of exactly one `intent` event first, zero or more `delta` events,
then at most one `error` event immediately followed by the single final
`done` event; no event follows the `done`. -/
theorem routeStream_event_shape (l : Label) (pieces : List Jval) (endErr : Bool)
    (cancel : Option ℕ) :
    actualSeqShape (routeAndAnswerStream l pieces endErr cancel) = true := by
  unfold routeAndAnswerStream
  simp only [actualSeqShape]
  split
  · exact deltasThenTerminal_append _ _ (streamLoop_all_delta l pieces endErr "" cancel)
      (by simp [deltasThenTerminal])
  · rw [List.append_assoc]
    refine deltasThenTerminal_append _ _ (streamLoop_all_delta l pieces endErr "" cancel) ?_
    split <;> simp [deltasThenTerminal]

/-- C3 (code evaluated at the failing input): feeding `['{"del', 'ta":"ab"}']`
through the non-code streaming path does not produce `Delta("ab")`: the
second fragment does not itself start with `{`/`[`, so it bypasses the JSON
buffer and is yielded as plain text, and the buffered `'{"del'` is flushed
at end of stream.  The run yields two deltas, neither equal to `"ab"`. -/
theorem routeStream_partial_json_not_buffered :
    routeAndAnswerStream .finance [.jstr "\x7b\"del", .jstr "ta\":\"ab\"\x7d"] false none =
      [.intent .finance "Finance Agent", .delta .finance "ta\":\"ab\"\x7d",
        .delta .finance "\x7b\"del", .done .finance] ∧
    routeAndAnswerStream .general [.jstr "\x7b\"del", .jstr "ta\":\"ab\"\x7d"] false none =
      [.intent .general "General Agent", .delta .general "ta\":\"ab\"\x7d",
        .delta .general "\x7b\"del", .done .general] ∧
    ((routeAndAnswerStream .general [.jstr "\x7b\"del", .jstr "ta\":\"ab\"\x7d"] false
        none).contains (Ev.delta .general "ab")) = false :=
  ⟨by decide, by decide, by decide⟩

/-- C4 (counterexample): an empty fragment on the code path is skipped by
`if (!s) continue;` and yields no `delta` event at all, so not every
fragment is emitted verbatim as a single `Delta`. -/
theorem routeStream_code_empty_fragment_dropped :
    routeAndAnswerStream .code [.jstr ""] false none =
      [.intent .code "Code Agent", .done .code] := by decide

/-- C4 (amended): on the code-domain streaming path JSON parsing and
buffering are never attempted: every nonempty fragment (including ones
whose trimmed form starts with `{`) is emitted verbatim and unmodified as a
single `delta` event, in order, and empty fragments are skipped. -/
theorem routeStream_code_passthrough (frags : List String) :
    routeAndAnswerStream .code (frags.map .jstr) false none =
      .intent .code "Code Agent" ::
        ((frags.filter (fun s => s ≠ "")).map (Ev.delta .code) ++ [.done .code]) := by
  have key : ∀ (fs : List String) (buf : String),
      streamLoop .code (fs.map .jstr) false buf none =
        ⟨(fs.filter (fun s => s ≠ "")).map (Ev.delta .code), buf, false, fs.length⟩ := by
    intro fs
    induction fs with
    | nil => intro buf; simp [streamLoop]
    | cons f rest ih =>
      intro buf
      by_cases hf : f = "" <;>
        simp [streamLoop, normalizeToString, hf, ih buf, List.filter_cons]
  simp only [routeAndAnswerStream, key]
  simp [jsTrim, jsTrimList, agentDisplayName]

end AiMultiagent

namespace AiMultiagent

open Jval

/-- C7: if the fragment source exhausts normally (no throw, no cancellation)
while the JSON accumulation buffer is non-empty, `part_005` emits exactly
the buffered content as a final `delta` event right before the final
`done`: buffered bytes are not silently dropped. -/
theorem routeStream_residual_flush (l : Label) (pieces : List Jval)
    (h : jsTrim (streamLoop l pieces false "" none).buf ≠ "") :
    routeAndAnswerStream l pieces false none =
      .intent l (agentDisplayName l) ::
        ((streamLoop l pieces false "" none).evs ++
          [.delta l (streamLoop l pieces false "" none).buf, .done l]) := by
  simp only [routeAndAnswerStream, streamLoop_not_errored l pieces "" none]
  simp [h]

/-- Witness for `routeStream_residual_flush` at the spec's example buffer
content. -/
theorem routeStream_residual_flush_witness :
    jsTrim (streamLoop .general [.jstr "\x7b\"partial\":"] false "" none).buf ≠ "" ∧
    routeAndAnswerStream .general [.jstr "\x7b\"partial\":"] false none =
      [.intent .general "General Agent", .delta .general "\x7b\"partial\":",
        .done .general] := by
  have h : jsTrim (streamLoop .general [.jstr "\x7b\"partial\":"] false "" none).buf ≠ "" := by
    decide
  refine ⟨h, ?_⟩
  rw [routeStream_residual_flush .general [.jstr "\x7b\"partial\":"] h]
  decide

/-- The cancelled loop behaves like the uncancelled loop on the first `N`
fragments, except that it pulls one extra fragment (the abort check sits
after the `for await` pull). -/
lemma streamLoop_cancel (l : Label) (pieces : List Jval) :
    ∀ (N : ℕ) (endErr : Bool) (buf : String), N < pieces.length →
    streamLoop l pieces endErr buf (some N) =
      ⟨(streamLoop l (pieces.take N) false buf none).evs,
        (streamLoop l (pieces.take N) false buf none).buf, false, N + 1⟩ := by
  induction pieces with
  | nil => intro N e b h; simp at h
  | cons p rest ih =>
    intro N e b h
    cases N with
    | zero => simp [streamLoop]
    | succ M =>
      have hM : M < rest.length := by simpa using h
      by_cases h1 : normalizeToString p = ""
      · simp [streamLoop, h1, ih M e b hM]
      · by_cases h2 : l = .code
        · subst h2
          simp [streamLoop, h1, ih M e b hM]
        · by_cases h3 : looksJson (jsTrim (normalizeToString p)) = true
          · cases hp : jsonParse (b ++ jsTrim (normalizeToString p)) with
            | some parsed => simp [streamLoop, h1, h2, h3, hp, ih M e "" hM]
            | none =>
              simp [streamLoop, h1, h2, h3, hp,
                ih M e (b ++ jsTrim (normalizeToString p)) hM]
          · simp [streamLoop, h1, h2, h3, ih M e b hM]

/-- C5 (counterexample): with the signal set after 1 fragment has been
pulled, fragment 2 is still requested from the upstream source (2 pulls are
made), and the residual-buffer flush emits a `delta` event after the
cancellation. -/
theorem routeStream_cancel_still_pulls_and_flushes :
    routePulls .general [.jstr "\x7b\"x\":", .jstr "y"] false (some 1) = 2 ∧
    routeAndAnswerStream .general [.jstr "\x7b\"x\":", .jstr "y"] false (some 1) =
      [.intent .general "General Agent", .delta .general "\x7b\"x\":", .done .general] :=
  ⟨by decide, by decide⟩

/-- C5 (amended): if the cancellation signal is set after `N` fragments have
been pulled, exactly one further fragment is pulled (and discarded), and the
emitted event sequence is exactly that of an uncancelled run over the first
`N` fragments: no `delta` derived from a fragment pulled after cancellation
is emitted, and the stream still ends with its flush and `done`. -/
theorem routeStream_cancel_truncates (l : Label) (pieces : List Jval)
    (endErr : Bool) (N : ℕ) (h : N < pieces.length) :
    routeAndAnswerStream l pieces endErr (some N) =
      routeAndAnswerStream l (pieces.take N) false none ∧
    routePulls l pieces endErr (some N) = N + 1 := by
  have key := streamLoop_cancel l pieces N endErr "" h
  have he := streamLoop_not_errored l (pieces.take N) "" none
  constructor
  · simp only [routeAndAnswerStream, key, he]
  · simp [routePulls, key]

/-- Witness for `routeStream_cancel_truncates`. -/
theorem routeStream_cancel_truncates_witness :
    1 < ([Jval.jstr "a", Jval.jstr "b"] : List Jval).length ∧
    (routeAndAnswerStream .general [.jstr "a", .jstr "b"] false (some 1) =
        routeAndAnswerStream .general ([Jval.jstr "a", Jval.jstr "b"].take 1) false none ∧
      routePulls .general [.jstr "a", .jstr "b"] false (some 1) = 2) :=
  ⟨by decide, routeStream_cancel_truncates .general [.jstr "a", .jstr "b"] false 1 (by decide)⟩

end AiMultiagent

namespace AiMultiagent

open Jval

/-- C2 (counterexample): with no classification agent configured and a
fallback model call that throws, `classifyIntent` rejects instead of
returning the default result — the fallback `ctrl.ask` is not inside any
try/catch in the source, so classification is not total. -/
theorem classifyIntent_throws_on_model_error :
    classifyIntent none (.error "NetworkError") = .error "NetworkError" := rfl

/-- C2 (amended): `classifyIntent` rejects exactly when the agent path
produced no valid result and the fallback model call itself throws.  When
the model call returns, classification is total, and if neither path yields
a valid label the default `{label: "general", confidence: 0.5, source:
"fallback"}` is returned. -/
theorem classifyIntent_total_unless_model_throws :
    (∀ (a : Option (Except String String)) (raw : String),
      agentValid a = none → validFrom raw = none →
      classifyIntent a (.ok raw) = .ok ⟨.general, 1/2, .fallback⟩) ∧
    (∀ (a : Option (Except String String)) (m : Except String String) (e : String),
      classifyIntent a m = .error e ↔ (agentValid a = none ∧ m = .error e)) := by
  constructor
  · intro a raw h1 h2
    match a with
    | none => simp [classifyIntent, h2]
    | some (.error s) => simp [classifyIntent, h2]
    | some (.ok out) =>
      simp only [agentValid] at h1
      simp [classifyIntent, h1, h2]
  · intro a m e
    match a with
    | none =>
      cases m with
      | ok raw =>
        simp only [classifyIntent, agentValid]
        cases h : validFrom raw with
        | some v => obtain ⟨lv, cv⟩ := v; simp
        | none => simp
      | error s => simp [classifyIntent, agentValid]
    | some (.error s2) =>
      cases m with
      | ok raw =>
        simp only [classifyIntent, agentValid]
        cases h : validFrom raw with
        | some v => obtain ⟨lv, cv⟩ := v; simp
        | none => simp
      | error s => simp [classifyIntent, agentValid]
    | some (.ok out) =>
      cases h : validFrom out with
      | some v =>
        obtain ⟨lv, cv⟩ := v
        simp [classifyIntent, h, agentValid]
      | none =>
        cases m with
        | ok raw =>
          simp only [classifyIntent, h, agentValid]
          cases h2 : validFrom raw with
          | some v => obtain ⟨lv, cv⟩ := v; simp
          | none => simp
        | error s => simp [classifyIntent, h, agentValid]

/-- Witness for `classifyIntent_total_unless_model_throws`: both provider
replies are unparseable, and the default classification is returned. -/
theorem classifyIntent_total_unless_model_throws_witness :
    agentValid (some (.ok "not json")) = none ∧ validFrom "also not json" = none ∧
    classifyIntent (some (.ok "not json")) (.ok "also not json") =
      .ok ⟨.general, 1/2, .fallback⟩ :=
  ⟨by decide, by decide,
    classifyIntent_total_unless_model_throws.1 _ _ (by decide) (by decide)⟩

/-- C8 (counterexample): for a reply whose first JSON object contains a
nested object, the non-greedy regex `/\{[\s\S]*?\}/` cuts at the first `}`:
the extracted substring is a proper prefix of the balanced object and does
not even parse. -/
theorem extractFirstJson_cuts_nested :
    extractFirstJson "x\x7b\"a\":\x7b\"b\":1\x7d\x7dy" = some "\x7b\"a\":\x7b\"b\":1\x7d" ∧
    jsonParse "\x7b\"a\":\x7b\"b\":1\x7d" = none ∧
    (("\x7b\"a\":\x7b\"b\":1\x7d" : String) == "\x7b\"a\":\x7b\"b\":1\x7d\x7d") = false :=
  ⟨by decide, rfl, by decide⟩

lemma afterBrace_flat (inner : List Char) (post : List Char)
    (h : ∀ c ∈ inner, c ≠ '}') :
    afterBrace (inner ++ '}' :: post) = some (inner ++ ['}']) := by
  induction inner with
  | nil => simp [afterBrace]
  | cons c rest ih =>
    have hc : ¬ c = '}' := h c (by simp)
    simp only [List.cons_append, afterBrace, if_neg hc, List.append_eq,
      ih (fun x hx => h x (by simp [hx]))]
    rfl

lemma eFJ_skip (pre : List Char) (r : List Char) (h : ∀ c ∈ pre, c ≠ '{') :
    eFJ (pre ++ r) = eFJ r := by
  induction pre with
  | nil => rfl
  | cons c rest ih =>
    have hc : ¬ c = '{' := h c (by simp)
    simp only [List.cons_append, eFJ, if_neg hc, List.append_eq,
      ih (fun x hx => h x (by simp [hx]))]

/-- C8 (amended): the extraction takes the substring from the first `{` up
to the first following `}` (the lazy match), which is the complete first
object precisely when that object has no nested braces: for every reply
`pre ++ "{" ++ inner ++ "}" ++ post` where `pre` contains no `{` and
`inner` contains no brace, the complete object `"{" ++ inner ++ "}"` is
extracted (and is what gets parsed). -/
theorem extractFirstJson_flat_object (pre inner post : String)
    (hpre : ∀ c ∈ pre.data, c ≠ '{')
    (hin : ∀ c ∈ inner.data, c ≠ '{' ∧ c ≠ '}') :
    extractFirstJson (pre ++ "\x7b" ++ inner ++ "\x7d" ++ post) =
      some ("\x7b" ++ inner ++ "\x7d") := by
  unfold extractFirstJson
  have hd : (pre ++ "\x7b" ++ inner ++ "\x7d" ++ post).data =
      pre.data ++ ('{' :: (inner.data ++ ('}' :: post.data))) := by
    show (pre.data ++ "\x7b".data ++ inner.data ++ "\x7d".data ++ post.data : List Char) = _
    simp
  rw [hd, eFJ_skip _ _ hpre]
  simp only [eFJ, if_pos rfl]
  rw [afterBrace_flat _ _ (fun c hc => (hin c hc).2)]
  rfl

/-- Witness for `extractFirstJson_flat_object`. -/
theorem extractFirstJson_flat_object_witness :
    (∀ c ∈ ("prose " : String).data, c ≠ '{') ∧
    (∀ c ∈ ("\"label\":\"code\"" : String).data, c ≠ '{' ∧ c ≠ '}') ∧
    extractFirstJson ("prose " ++ "\x7b" ++ "\"label\":\"code\"" ++ "\x7d" ++ " tail") =
      some ("\x7b" ++ "\"label\":\"code\"" ++ "\x7d") :=
  ⟨by decide, by decide,
    extractFirstJson_flat_object "prose " "\"label\":\"code\"" " tail" (by decide) (by decide)⟩

end AiMultiagent

namespace AiMultiagent

open Jval

/-- C10 (counterexample): the single left-to-right pass of
`replace(/\[object Object\]/g, "")` can splice the surrounding text into a
fresh occurrence: normalizing `"[object [object Object]Object]"` returns
`"[object Object]"`, which still contains the banned substring. -/
theorem normalize_can_splice_token :
    normalize (.jstr "[object [object Object]Object]") = "[object Object]" ∧
    hasTok objTok (normalize (.jstr "[object [object Object]Object]")).data = true :=
  ⟨by decide, by decide⟩

lemma head?_dropWhile (p : Char → Bool) (l : List Char) (c : Char)
    (h : (l.dropWhile p).head? = some c) : p c = false := by
  induction l with
  | nil => simp [List.dropWhile] at h
  | cons x xs ih =>
    rw [List.dropWhile_cons] at h
    split at h
    · exact ih h
    · simp only [List.head?_cons, Option.some.injEq] at h
      rename_i hpx
      subst h
      simpa using hpx

lemma getLast?_dropWhile (p : Char → Bool) (l : List Char) (c : Char)
    (h : (l.dropWhile p).getLast? = some c) : l.getLast? = some c := by
  induction l with
  | nil => simp [List.dropWhile] at h
  | cons x xs ih =>
    rw [List.dropWhile_cons] at h
    split at h
    · have hxs := ih h
      cases xs with
      | nil => simp at hxs
      | cons y ys => rw [List.getLast?_cons_cons]; exact hxs
    · exact h

/-- Any fuel at least the length of the list computes the same single
replacement pass. -/
lemma stripGo_fuel (tok : List Char) :
    ∀ (f1 : ℕ) (l : List Char) (f2 : ℕ), l.length ≤ f1 → l.length ≤ f2 →
    stripGo tok f1 l = stripGo tok f2 l := by
  intro f1
  induction f1 with
  | zero =>
    intro l f2 h1 _
    have : l = [] := List.length_eq_zero.mp (Nat.le_zero.mp h1)
    subst this
    cases f2 <;> rfl
  | succ f ih =>
    intro l f2 h1 h2
    cases l with
    | nil => cases f2 <;> rfl
    | cons c rest =>
      cases f2 with
      | zero => simp at h2
      | succ f2' =>
        simp only [stripGo]
        split
        · have hlen : 1 ≤ tok.length := by
            rename_i hcond
            cases htok : tok with
            | nil => exact absurd htok hcond.1
            | cons t ts => simp
          refine ih _ _ ?_ ?_ <;>
            simp only [List.length_drop, List.length_cons] at * <;> omega
        · rw [ih rest f2' (by simpa using Nat.le_of_succ_le_succ h1)
            (by simpa using Nat.le_of_succ_le_succ h2)]

lemma stripGo_id_of_no_tok (tok : List Char) :
    ∀ (fuel : ℕ) (l : List Char), hasTok tok l = false → l.length ≤ fuel →
    stripGo tok fuel l = l := by
  intro fuel
  induction fuel with
  | zero =>
    intro l _ hl
    have : l = [] := List.length_eq_zero.mp (Nat.le_zero.mp hl)
    subst this; rfl
  | succ f ih =>
    intro l h hl
    cases l with
    | nil => rfl
    | cons c rest =>
      simp only [hasTok, Bool.or_eq_false_iff, decide_eq_false_iff_not] at h
      simp only [stripGo]
      rw [if_neg (fun hcond => h.1 hcond.2)]
      rw [ih rest h.2 (by simpa using Nat.le_of_succ_le_succ hl)]

/-- C10 (amended): for every string answer, the normalizer returns the
single-pass global replacement of `"[object Object]"` by `""` followed by a
trim: the result has no leading or trailing whitespace; an answer with no
occurrence of the substring is returned merely trimmed; every occurrence
present in the input is consumed by the pass (in particular a leading
occurrence is deleted); but the pass may splice a new occurrence, so the
result is not always free of the substring. -/
theorem normalize_strips_and_trims :
    (∀ (s : String) (c : Char),
      (normalize (.jstr s)).data.head? = some c → isJsWs c = false) ∧
    (∀ (s : String) (c : Char),
      (normalize (.jstr s)).data.getLast? = some c → isJsWs c = false) ∧
    (∀ s : String, hasTok objTok s.data = false → normalize (.jstr s) = jsTrim s) ∧
    (∀ l : List Char, jsStripAll objTok (objTok ++ l) = jsStripAll objTok l) := by
  refine ⟨?_, ?_, ?_, ?_⟩
  · intro s c h
    simp only [normalize, jsTrim, jsTrimList] at h
    rw [List.head?_reverse] at h
    have h2 := getLast?_dropWhile _ _ _ h
    rw [List.getLast?_reverse] at h2
    exact head?_dropWhile _ _ _ h2
  · intro s c h
    simp only [normalize, jsTrim, jsTrimList] at h
    rw [List.getLast?_reverse] at h
    exact head?_dropWhile _ _ _ h
  · intro s h
    simp only [normalize, jsStripAll]
    rw [stripGo_id_of_no_tok objTok s.data.length s.data h (le_refl _)]
  · intro l
    simp only [jsStripAll]
    have h15 : objTok.length = 15 := rfl
    have hlen : (objTok ++ l).length = l.length + 15 := by
      rw [List.length_append, h15, Nat.add_comm]
    have h1 : stripGo objTok (objTok ++ l).length (objTok ++ l) =
        stripGo objTok (l.length + 15) (objTok ++ l) :=
      stripGo_fuel objTok ((objTok ++ l).length) (objTok ++ l) (l.length + 15)
        (le_refl _) (by omega)
    rw [h1]
    have htake : (objTok ++ l).take objTok.length = objTok := List.take_left _ _
    show stripGo objTok (l.length + 14 + 1) ('[' :: ("object Object]".data ++ l)) = _
    simp only [stripGo]
    rw [if_pos ⟨by decide, htake⟩]
    show stripGo objTok (l.length + 14) l = stripGo objTok l.length l
    exact stripGo_fuel objTok (l.length + 14) l l.length (by omega) (le_refl _)


/-- Witness for `normalize_strips_and_trims`. -/
theorem normalize_strips_and_trims_witness :
    (normalize (.jstr " x ")).data.head? = some 'x' ∧ isJsWs 'x' = false ∧
    (normalize (.jstr " x ")).data.getLast? = some 'x' ∧
    hasTok objTok "plain".data = false ∧ normalize (.jstr "plain") = jsTrim "plain" :=
  ⟨by decide, normalize_strips_and_trims.1 " x " 'x' (by decide),
    by decide, by decide, normalize_strips_and_trims.2.2.1 "plain" (by decide)⟩

end AiMultiagent

namespace AiMultiagent

open Jval

/-- C6 (counterexample): in the streaming finance responder, when the agent
invocation raises but no model id resolves, the direct model call is
invoked zero times (not exactly once), and the outcome is the
missing-model-id error rather than the model call's result. -/
theorem financeStream_agent_fail_without_model_id :
    financeAgentStream (some ⟨[], some "AccessDenied"⟩) none
        (fun _ => ⟨["model output"], none⟩) "" (3/10) 900 "hi" =
      (⟨[], some "financeAgentStream: No modelId resolved (set BEDROCK_MODEL_FINANCE or provide models.finance)."⟩,
        []) := rfl

/-- C6 (amended): whenever the agent invocation raises, each responder
behaves exactly like its direct-model path: `codingAgent` and
`genericAgent` then invoke the model exactly once with the same prompt
parameters as the direct path and return its normalized result (its thrown
error propagating untouched, the agent failure never surfacing);
`financeAgentStream` appends the direct path's outcome after whatever
fragments the agent yielded before failing, and invokes the model exactly
once with the direct path's prompt provided a model id resolves. -/
theorem agent_failure_falls_back_to_model :
    (∀ (e : String) (mc : Prompt → Except String String) (sys : String)
        (temp : ℚ) (mx : ℕ) (t : String),
      codingAgent (some (.error e)) mc sys temp mx t = codingAgent none mc sys temp mx t ∧
      (codingAgent none mc sys temp mx t).2 = [⟨sys, t, temp, mx⟩] ∧
      (∀ err, mc ⟨sys, t, temp, mx⟩ = .error err →
        (codingAgent (some (.error e)) mc sys temp mx t).1 = .error err)) ∧
    (∀ (e : String) (mc : Prompt → Except String String) (sys : String)
        (temp : ℚ) (mx : ℕ) (t : String),
      genericAgent (some (.error e)) mc sys temp mx t = genericAgent none mc sys temp mx t ∧
      (genericAgent none mc sys temp mx t).2 = [⟨sys, t, temp, mx⟩]) ∧
    (∀ (pieces : List String) (e : String) (mid : Option String)
        (ms : Prompt → StreamOut) (tc : String) (temp : ℚ) (mx : ℕ) (t : String),
      financeAgentStream (some ⟨pieces, some e⟩) mid ms tc temp mx t =
        (⟨pieces ++ (financeAgentStream none mid ms tc temp mx t).1.pieces,
          (financeAgentStream none mid ms tc temp mx t).1.err⟩,
          (financeAgentStream none mid ms tc temp mx t).2) ∧
      (∀ m, mid = some m →
        (financeAgentStream none mid ms tc temp mx t).2 =
          [⟨finSys, buildUserPrompt t tc, temp, mx⟩])) := by
  refine ⟨?_, ?_, ?_⟩
  · intro e mc sys temp mx t
    refine ⟨rfl, ?_, ?_⟩
    · cases h : mc ⟨sys, t, temp, mx⟩ <;> simp [codingAgent, h]
    · intro err herr
      simp [codingAgent, herr]
  · intro e mc sys temp mx t
    refine ⟨rfl, ?_⟩
    cases h : mc ⟨sys, t, temp, mx⟩ <;> simp [genericAgent, h]
  · intro pieces e mid ms tc temp mx t
    refine ⟨?_, ?_⟩
    · cases mid <;> rfl
    · intro m hm
      subst hm
      rfl

/-- Witness for `agent_failure_falls_back_to_model`. -/
theorem agent_failure_falls_back_to_model_witness :
    codingAgent (some (.error "denied")) (fun _ => .error "boom") "SYS" (2/10) 1400 "hi" =
        codingAgent none (fun _ => .error "boom") "SYS" (2/10) 1400 "hi" ∧
    (codingAgent (some (.error "denied")) (fun _ => .error "boom") "SYS" (2/10) 1400 "hi").1 =
        .error "boom" ∧
    (financeAgentStream none (some "model-id") (fun _ => ⟨["x"], none⟩) "tc" (3/10) 900 "hi").2 =
        [⟨finSys, buildUserPrompt "hi" "tc", 3/10, 900⟩] :=
  ⟨(agent_failure_falls_back_to_model.1 "denied" _ "SYS" (2/10) 1400 "hi").1,
    (agent_failure_falls_back_to_model.1 "denied" _ "SYS" (2/10) 1400 "hi").2.2 "boom" rfl,
    (agent_failure_falls_back_to_model.2.2 [] "e" (some "model-id") _ "tc" (3/10) 900 "hi").2
      "model-id" rfl⟩

/-- C9 (counterexample): the two `routeAndAnswerStream` implementations are
not equivalent: already on the empty fragment stream, the `part_005`
version (through the `server.js` frame encoding) emits an intent frame
carrying the display name and a final done frame, while the
`routerAgent.js` version emits a single bare intent frame and no terminal
frame at all. -/
theorem routeStream_v0_not_equivalent :
    (framesV5 .general [] false none == routeAndAnswerStreamV0 .general [] false) = false ∧
    framesV5 .general [] false none =
      ["data: \x7b\"intent\":\"general\",\"agentName\":\"General Agent\"\x7d\n\n",
        "data: \x7b\"done\":true\x7d\n\n"] ∧
    routeAndAnswerStreamV0 .general [] false =
      ["data: \x7b\"intent\":\"general\"\x7d\n\n"] :=
  ⟨by decide, by decide, by decide⟩

lemma routeStream_ends_done (l : Label) (pieces : List Jval) (endErr : Bool)
    (cancel : Option ℕ) :
    ∃ Y, routeAndAnswerStream l pieces endErr cancel = Y ++ [Ev.done l] := by
  by_cases herr : (streamLoop l pieces endErr "" cancel).errored = true
  · exact ⟨Ev.intent l (agentDisplayName l) ::
      ((streamLoop l pieces endErr "" cancel).evs ++ [Ev.error l "Error during streaming"]),
      by simp [routeAndAnswerStream, herr]⟩
  · by_cases hbuf : jsTrim (streamLoop l pieces endErr "" cancel).buf = ""
    · exact ⟨Ev.intent l (agentDisplayName l) :: (streamLoop l pieces endErr "" cancel).evs,
        by simp [routeAndAnswerStream, herr, hbuf]⟩
    · exact ⟨Ev.intent l (agentDisplayName l) ::
        ((streamLoop l pieces endErr "" cancel).evs ++
          [Ev.delta l (streamLoop l pieces endErr "" cancel).buf]),
        by simp [routeAndAnswerStream, herr, hbuf]⟩

lemma encodeFrame_done (l : Label) : encodeFrame (.done l) = some doneFrame := by
  cases l <;> decide

lemma data_append (a b : String) : (a ++ b).data = a.data ++ b.data := rfl

lemma stringify_delta_singleton (dv : Jval) :
    jsonStringify (.jobj [("delta", dv)]) =
      "\x7b" ++ (quoteJson "delta" ++ ":" ++ jsonStringify dv) ++ "\x7d" := by
  simp [jsonStringify, stringifyFields, joinComma]

lemma delta_frame_ne_done (dv : Jval) :
    "data: " ++ jsonStringify (.jobj [("delta", dv)]) ++ "\n\n" ≠ doneFrame := by
  intro h
  have hd := congrArg String.data h
  rw [stringify_delta_singleton] at hd
  have e1 : ("data: " : String).data = ['d','a','t','a',':',' '] := rfl
  have e2 : (quoteJson "delta").data = ['"','d','e','l','t','a','"'] := rfl
  have e3 : ("\x7b" : String).data = ['{'] := rfl
  have e4 : (":" : String).data = [':'] := rfl
  have e5 : ("\x7d" : String).data = ['}'] := rfl
  have e6 : ("\n\n" : String).data = ['\n','\n'] := rfl
  have e7 : (doneFrame).data =
      ['d','a','t','a',':',' ','{','"','d','o','n','e','"',':','t','r','u','e','}','\n','\n'] := rfl
  simp only [data_append, e1, e2, e3, e4, e5, e6, e7, List.cons_append, List.nil_append,
    List.append_assoc] at hd
  simp at hd

lemma loopV0_frames (chunks : List String) (f : String) (hf : f ∈ loopV0 chunks) :
    ∃ dv, f = "data: " ++ jsonStringify (.jobj [("delta", dv)]) ++ "\n\n" := by
  induction chunks with
  | nil => simp [loopV0] at hf
  | cons c rest ih =>
    simp only [loopV0, List.mem_append] at hf
    cases hf with
    | inl h =>
      unfold chunkFrameV0 at h
      cases hp : jsonParse c with
      | none => rw [hp] at h; simp at h
      | some parsed =>
        rw [hp] at h
        by_cases ht : jsTruthy (extractDeltaValV0 parsed) = true
        · simp only [ht, if_true, List.mem_singleton] at h
          exact ⟨_, h⟩
        · simp [ht] at h
    | inr h => exact ih h

lemma v0_no_done (l : Label) (chunks : List String) (endErr : Bool) :
    doneFrame ∉ routeAndAnswerStreamV0 l chunks endErr := by
  intro hmem
  unfold routeAndAnswerStreamV0 at hmem
  simp only [List.mem_cons, List.mem_append] at hmem
  rcases hmem with h | h | h
  · cases l <;> revert h <;> decide
  · obtain ⟨dv, hdv⟩ := loopV0_frames chunks _ h
    exact delta_frame_ne_done dv hdv.symm
  · split at h
    · simp only [List.mem_singleton] at h
      revert h
      decide
    · simp at h

/-- C9 (amended): the two implementations agree only on emitting an initial
intent frame for the classified label; beyond it they diverge:
the `part_005` stream (after `server.js` encoding) always ends with the
done frame, the `routerAgent.js` stream never contains a done frame, and
the two intent frames themselves differ (only the former carries the
display name). -/
theorem routeStream_vs_v0_divergence :
    (∀ (l : Label) (pieces : List Jval) (endErr : Bool) (cancel : Option ℕ),
      (framesV5 l pieces endErr cancel).getLast? = some doneFrame) ∧
    (∀ (l : Label) (chunks : List String) (endErr : Bool),
      ((routeAndAnswerStreamV0 l chunks endErr).all (fun f => f != doneFrame)) = true) ∧
    (∀ (l : Label) (chunks : List String) (endErr : Bool),
      (routeAndAnswerStreamV0 l chunks endErr).head? =
        some ("data: " ++ jsonStringify (.jobj [("intent", .jstr (labelStr l))]) ++ "\n\n")) ∧
    (∀ (l : Label) (pieces : List Jval) (endErr : Bool) (cancel : Option ℕ),
      (framesV5 l pieces endErr cancel).head? =
        some ("data: " ++ jsonStringify (.jobj [("intent", .jstr (labelStr l)),
          ("agentName", .jstr (agentDisplayName l))]) ++ "\n\n")) := by
  refine ⟨?_, ?_, ?_, ?_⟩
  · intro l pieces endErr cancel
    obtain ⟨Y, hY⟩ := routeStream_ends_done l pieces endErr cancel
    unfold framesV5
    rw [hY, List.filterMap_append]
    simp [encodeFrame_done]
  · intro l chunks endErr
    rw [List.all_eq_true]
    intro f hf
    have hne : f ≠ doneFrame := by
      intro he
      exact v0_no_done l chunks endErr (he ▸ hf)
    simpa [bne_iff_ne] using hne
  · intro l chunks endErr
    rfl
  · intro l pieces endErr cancel
    simp [framesV5, routeAndAnswerStream, List.filterMap_cons, encodeFrame]

end AiMultiagent
